import Mathlib

/-!
# Verification of the dash transaction ingester

Shallow embedding of the core pipeline of the `dash` repository
(`src/config.rs`, `src/db.rs`, `src/ingest.rs`, `src/main.rs`): the
stream-supervisor retry policy, the per-transaction extraction and
classification logic of `handle_tx`, and the persistence merge semantics of
the three upsert operations in `db.rs`.

Conventions of the embedding:
* Rust strings are Lean `String`; `str::contains` is substring containment
  on the character list.
* Base-58 encoding of binary keys/signatures is left abstract: account keys
  and signatures appear as already-encoded strings (the encoding is
  injective and never inspected by the code except through the resulting
  strings).
* The Postgres tables are association lists keyed as the schema's primary
  keys; `ON CONFLICT ... DO UPDATE` is insert-or-merge on the key.
* The external bincode decoder for the chain's `TransactionError` is an
  injected function `List Nat → Option TxErr`, plus one concrete model of
  it for evaluating scenarios.
-/

namespace Dash

/-- Rust `haystack.contains(needle)`: `needle` occurs as a contiguous
substring of `haystack`. -/
def containsStr (haystack needle : String) : Bool :=
  decide (needle.toList <:+: haystack.toList)

/-! ## Arbitrage-outcome heuristic (ingest.rs, `handle_tx` log scan) -/

/-- The literal negative-signal phrase scanned for in the bot logs. -/
def negPhrase : String := "No profitable arbitrage opportunity found"

/-- One log line shows DEX pool activity: it contains one of the three
positive-signal substrings. Mirrors the disjunction in `handle_tx`. -/
def posSignal (logline : String) : Bool :=
  containsStr logline "Instruction: Swap"
    || containsStr logline "Instruction: SwapBaseInput"
    || containsStr logline "Instruction: TransferChecked"

/-- First loop of the log scan: `for logline in log_messages { if
logline.contains(negPhrase) { saw_negative = true; break; } }`. The `break`
makes this a first-match scan. -/
def sawNegative : List String → Bool
  | [] => false
  | logline :: rest =>
    if containsStr logline negPhrase then true else sawNegative rest

/-- Second loop of the log scan (no break): `saw_pool_activity` is set if
any line carries a positive signal. -/
def sawPoolActivity (logs : List String) : Bool :=
  logs.foldl (fun acc logline => if posSignal logline then true else acc) false

/-- The arbitrage classification computed by `handle_tx` from a present
`meta.log_messages`: negative phrase ⇒ `some false`; else positive signal ⇒
`some true`; else `none` (the `arbitrage_success` variable stays `None`). -/
def classify_arbitrage (logs : List String) : Option Bool :=
  if sawNegative logs then some false
  else if sawPoolActivity logs then some true
  else none

/-- Reference definition, written from the specification's words: if any
line contains the negative-signal phrase the classification is `false`;
otherwise if any line contains a positive-signal substring it is `true`;
otherwise it is unknown (`none`). -/
def classify_arbitrage_spec (logs : List String) : Option Bool :=
  if logs.any (fun l => containsStr l negPhrase) then some false
  else if logs.any posSignal then some true
  else none

theorem sawNegative_eq_any (logs : List String) :
    sawNegative logs = logs.any (fun l => containsStr l negPhrase) := by
  induction logs with
  | nil => rfl
  | cons l rest ih =>
    simp only [sawNegative, List.any_cons]
    by_cases h : containsStr l negPhrase = true
    · simp [h]
    · simp [h, ih]

theorem sawPoolActivity_foldl (logs : List String) (b : Bool) :
    logs.foldl (fun acc logline => if posSignal logline then true else acc) b
      = (b || logs.any posSignal) := by
  induction logs generalizing b with
  | nil => simp
  | cons l rest ih =>
    simp only [List.foldl_cons, List.any_cons, ih]
    by_cases h : posSignal l = true <;> simp [h]

theorem sawPoolActivity_eq_any (logs : List String) :
    sawPoolActivity logs = logs.any posSignal := by
  unfold sawPoolActivity
  rw [sawPoolActivity_foldl]
  simp

/-- C1: The arbitrage-outcome classification of a transaction's log lines
equals the reference definition: negative phrase anywhere forces `false`
(taking precedence over any positive signals, and stopping further
heuristics); otherwise any positive-signal substring gives `true`;
otherwise the outcome is left unknown. -/
theorem classify_arbitrage_matches_spec (logs : List String) :
    classify_arbitrage logs = classify_arbitrage_spec logs := by
  unfold classify_arbitrage classify_arbitrage_spec
  rw [sawNegative_eq_any, sawPoolActivity_eq_any]

/-! ## Noise-program filter and instruction aggregation (ingest.rs) -/

/-- `is_noise_program_id` from ingest.rs: the fixed set of infrastructure
program identifiers excluded from instruction counting (system program,
compute-budget program, SPL token program, the two memo programs, and the
bot's own program id). -/
def is_noise_program_id (pid : String) : Bool :=
  pid == "11111111111111111111111111111111"
    || pid == "ComputeBudget111111111111111111111111111111"
    || pid == "TokenkegQfeZyiNwAJbNbGKPFXCWuBvf9Ss623VQ5DA"
    || pid == "MemoSq4gqABAXKb96qnH8TysNcWxMyWCqXgDLGmfcHr"
    || pid == "Memo1UhkJRfHyvLMcVucJwxXeuD728EqVDDwQDxFMNo"
    || pid == "MEViEnscUm6tsQRoGd9h6nLQaQspKj7DB2M5FwM3Xvz"

/-- A compiled instruction of the transaction message; `handle_tx` reads
only its `program_id_index` into the account-key list. -/
structure CompiledInstruction where
  program_id_index : Nat
deriving Repr, DecidableEq

/-- `*program_counts.entry(pid).or_insert(0) += 1` on the count map,
modelled as an association list: increment the entry for `pid`, creating it
(from the inserted 0) when absent. -/
def bumpCount (m : List (String × Int)) (pid : String) : List (String × Int) :=
  match m with
  | [] => [(pid, 1)]
  | (k, v) :: rest =>
    if k == pid then (k, v + 1) :: rest else (k, v) :: bumpCount rest pid

/-- The aggregation loop of `handle_tx`: for each instruction, resolve its
program by index into `account_keys` (missing index skips), skip noise
programs, and bump its count. -/
def aggregate_program_counts (account_keys : List String)
    (instructions : List CompiledInstruction) : List (String × Int) :=
  instructions.foldl
    (fun m inst =>
      match account_keys.get? inst.program_id_index with
      | none => m
      | some pid => if is_noise_program_id pid then m else bumpCount m pid)
    []

/-- Invariant carried by the aggregation accumulator: every entry has a
non-noise key and a count of at least 1. -/
def GoodCounts (m : List (String × Int)) : Prop :=
  ∀ p ∈ m, is_noise_program_id p.1 = false ∧ 1 ≤ p.2

theorem goodCounts_bump {m : List (String × Int)} {pid : String}
    (hm : GoodCounts m) (hpid : is_noise_program_id pid = false) :
    GoodCounts (bumpCount m pid) := by
  induction m with
  | nil =>
    intro p hp
    simp only [bumpCount, List.mem_singleton] at hp
    subst hp
    exact ⟨hpid, le_refl 1⟩
  | cons kv rest ih =>
    obtain ⟨k, v⟩ := kv
    have hkv := hm (k, v) (List.mem_cons_self _ _)
    have hrest : GoodCounts rest := fun p hp => hm p (List.mem_cons_of_mem _ hp)
    intro p hp
    simp only [bumpCount] at hp
    by_cases hk : (k == pid) = true
    · simp only [hk, if_true] at hp
      rcases List.mem_cons.mp hp with h | h
      · subst h
        refine ⟨hkv.1, ?_⟩
        have h2 : 1 ≤ v := hkv.2
        show 1 ≤ v + 1
        omega
      · exact hm p (List.mem_cons_of_mem _ h)
    · simp only [hk, if_false] at hp
      rcases List.mem_cons.mp hp with h | h
      · subst h
        exact hkv
      · exact ih hrest p h

theorem goodCounts_aggregate_go (account_keys : List String)
    (instructions : List CompiledInstruction)
    (m : List (String × Int)) (hm : GoodCounts m) :
    GoodCounts (instructions.foldl
      (fun m inst =>
        match account_keys.get? inst.program_id_index with
        | none => m
        | some pid => if is_noise_program_id pid then m else bumpCount m pid)
      m) := by
  induction instructions generalizing m with
  | nil => exact hm
  | cons inst rest ih =>
    simp only [List.foldl_cons]
    apply ih
    cases hget : account_keys.get? inst.program_id_index with
    | none => simpa [hget] using hm
    | some pid =>
      by_cases hn : is_noise_program_id pid = true
      · simpa [hget, hn] using hm
      · simp only [hget, hn, if_false]
        exact goodCounts_bump hm (by simpa using hn)

theorem goodCounts_aggregate (account_keys : List String)
    (instructions : List CompiledInstruction) :
    GoodCounts (aggregate_program_counts account_keys instructions) :=
  goodCounts_aggregate_go account_keys instructions [] (by intro p hp; cases hp)

/-- C5: the per-program instruction-count aggregation never includes a
noise-program identifier as a key, for any instruction list and account-key
list. -/
theorem aggregate_excludes_noise (account_keys : List String)
    (instructions : List CompiledInstruction) (pid : String) (c : Int)
    (h : (pid, c) ∈ aggregate_program_counts account_keys instructions) :
    is_noise_program_id pid = false :=
  (goodCounts_aggregate account_keys instructions (pid, c) h).1

/-- Witness for C5 at a concrete input: aggregating one instruction whose
program key is "Prog1" yields an entry, and its key is not a noise id. -/
theorem aggregate_excludes_noise_witness :
    ("Prog1", (1 : Int)) ∈ aggregate_program_counts ["Prog1"] [⟨0⟩] ∧
      is_noise_program_id "Prog1" = false :=
  ⟨by decide, aggregate_excludes_noise ["Prog1"] [⟨0⟩] "Prog1" 1 (by decide)⟩

/-- C10: every count in the aggregated program-count map is at least 1: a
key is only ever created by incrementing from the inserted zero. -/
theorem aggregate_counts_positive (account_keys : List String)
    (instructions : List CompiledInstruction) (pid : String) (c : Int)
    (h : (pid, c) ∈ aggregate_program_counts account_keys instructions) :
    1 ≤ c :=
  (goodCounts_aggregate account_keys instructions (pid, c) h).2

/-- Witness for C10 at a concrete input: with two instructions of the same
program, the aggregated entry carries count 2, which is at least 1. -/
theorem aggregate_counts_positive_witness :
    ("Prog1", (2 : Int)) ∈ aggregate_program_counts ["Prog1"] [⟨0⟩, ⟨0⟩] ∧
      1 ≤ (2 : Int) :=
  ⟨by decide, aggregate_counts_positive ["Prog1"] [⟨0⟩, ⟨0⟩] "Prog1" 2 (by decide)⟩


/-! ## The burns table and `upsert_burn` (db.rs) -/

/-- One row of the `burns` table (the signature is the association-list
key). Optional columns are the nullable ones of the schema. -/
structure BurnRow where
  slot : Int
  success : Bool
  fee_lamports : Int
  fee_payer : String
  block_time : Option Int
  compute_units : Option Int
  arbitrage_success : Option Bool
deriving Repr, DecidableEq

/-- SQL `COALESCE(a, b)`: the first non-null argument. -/
def coalesce {α : Type} (a b : Option α) : Option α :=
  match a with
  | some x => some x
  | none => b

/-- The `ON CONFLICT (signature) DO UPDATE SET` clause of `upsert_burn`:
`slot`, `success`, `fee_lamports`, `fee_payer` take the excluded (incoming)
values; `block_time`, `compute_units`, `arbitrage_success` take
`COALESCE(EXCLUDED.col, burns.col)`. -/
def mergeBurnRow (stored incoming : BurnRow) : BurnRow :=
  { slot := incoming.slot
    success := incoming.success
    fee_lamports := incoming.fee_lamports
    fee_payer := incoming.fee_payer
    block_time := coalesce incoming.block_time stored.block_time
    compute_units := coalesce incoming.compute_units stored.compute_units
    arbitrage_success :=
      coalesce incoming.arbitrage_success stored.arbitrage_success }

/-- The `burns` table, keyed by signature. -/
abbrev BurnsTable := List (String × BurnRow)

/-- Row lookup by primary key (first match). -/
def lookupBurn : BurnsTable → String → Option BurnRow
  | [], _ => none
  | (s, r) :: rest, sig => if s = sig then some r else lookupBurn rest sig

/-- Apply the conflict-update to every row keyed `sig`. -/
def replaceBurn : BurnsTable → String → BurnRow → BurnsTable
  | [], _, _ => []
  | (s, r0) :: rest, sig, r =>
    if s = sig then (s, r) :: replaceBurn rest sig r
    else (s, r0) :: replaceBurn rest sig r

/-- `upsert_burn` of db.rs: insert the row at its signature, or on conflict
merge it into the stored row with `mergeBurnRow`. -/
def upsert_burn (tbl : BurnsTable) (sig : String) (row : BurnRow) : BurnsTable :=
  match lookupBurn tbl sig with
  | none => tbl ++ [(sig, row)]
  | some stored => replaceBurn tbl sig (mergeBurnRow stored row)

theorem coalesce_self {α : Type} (a : Option α) : coalesce a a = a := by
  cases a <;> rfl

theorem coalesce_coalesce {α : Type} (a b : Option α) :
    coalesce a (coalesce a b) = coalesce a b := by
  cases a <;> rfl

theorem mergeBurnRow_self (row : BurnRow) : mergeBurnRow row row = row := by
  cases row
  simp [mergeBurnRow, coalesce_self]

theorem mergeBurnRow_merge (stored incoming : BurnRow) :
    mergeBurnRow (mergeBurnRow stored incoming) incoming
      = mergeBurnRow stored incoming := by
  simp [mergeBurnRow, coalesce_coalesce]

theorem lookupBurn_none_no_key {tbl : BurnsTable} {sig : String}
    (h : lookupBurn tbl sig = none) : ∀ p ∈ tbl, p.1 ≠ sig := by
  induction tbl with
  | nil => intro p hp; cases hp
  | cons q rest ih =>
    obtain ⟨s, r⟩ := q
    intro p hp
    simp only [lookupBurn] at h
    by_cases hs : s = sig
    · simp [hs] at h
    · rcases List.mem_cons.mp hp with hq | hq
      · subst hq; exact hs
      · exact ih (by simpa [hs] using h) p hq

theorem replaceBurn_no_key {tbl : BurnsTable} {sig : String} {r : BurnRow}
    (h : ∀ p ∈ tbl, p.1 ≠ sig) : replaceBurn tbl sig r = tbl := by
  induction tbl with
  | nil => rfl
  | cons q rest ih =>
    obtain ⟨s, r0⟩ := q
    have hs : s ≠ sig := h (s, r0) (List.mem_cons_self _ _)
    simp [replaceBurn, hs, ih (fun p hp => h p (List.mem_cons_of_mem _ hp))]

theorem replaceBurn_append (t1 t2 : BurnsTable) (sig : String) (r : BurnRow) :
    replaceBurn (t1 ++ t2) sig r = replaceBurn t1 sig r ++ replaceBurn t2 sig r := by
  induction t1 with
  | nil => rfl
  | cons q rest ih =>
    obtain ⟨s, r0⟩ := q
    by_cases hs : s = sig <;> simp [replaceBurn, hs, ih]

theorem lookupBurn_append_self (tbl : BurnsTable) (sig : String)
    (row : BurnRow) (h : lookupBurn tbl sig = none) :
    lookupBurn (tbl ++ [(sig, row)]) sig = some row := by
  induction tbl with
  | nil => simp [lookupBurn]
  | cons q rest ih =>
    obtain ⟨s, r0⟩ := q
    simp only [lookupBurn, List.cons_append] at h ⊢
    by_cases hs : s = sig
    · simp [hs] at h
    · rw [if_neg hs] at h ⊢
      exact ih h

theorem lookupBurn_replace (tbl : BurnsTable) (sig : String) (r : BurnRow) :
    lookupBurn (replaceBurn tbl sig r) sig
      = (lookupBurn tbl sig).map (fun _ => r) := by
  induction tbl with
  | nil => rfl
  | cons q rest ih =>
    obtain ⟨s, r0⟩ := q
    by_cases hs : s = sig
    · subst hs
      simp [replaceBurn, lookupBurn]
    · simp [replaceBurn, lookupBurn, hs, ih]

theorem replaceBurn_replace (tbl : BurnsTable) (sig : String)
    (a b : BurnRow) :
    replaceBurn (replaceBurn tbl sig a) sig b = replaceBurn tbl sig b := by
  induction tbl with
  | nil => rfl
  | cons q rest ih =>
    obtain ⟨s, r0⟩ := q
    by_cases hs : s = sig
    · subst hs
      simp [replaceBurn, ih]
    · simp [replaceBurn, hs, ih]

/-- C6: `upsert_burn` is idempotent — upserting the same signature and row
twice leaves exactly the state of one upsert (for the whole table, hence in
particular for that signature's stored row). -/
theorem upsert_burn_idempotent (tbl : BurnsTable) (sig : String)
    (row : BurnRow) :
    upsert_burn (upsert_burn tbl sig row) sig row = upsert_burn tbl sig row := by
  cases h : lookupBurn tbl sig with
  | none =>
    have hno := lookupBurn_none_no_key h
    have hlook := lookupBurn_append_self tbl sig row h
    simp only [upsert_burn, h, hlook, mergeBurnRow_self]
    rw [replaceBurn_append, replaceBurn_no_key hno]
    simp [replaceBurn]
  | some stored =>
    have hl : lookupBurn (replaceBurn tbl sig (mergeBurnRow stored row)) sig
        = some (mergeBurnRow stored row) := by
      rw [lookupBurn_replace, h]
      rfl
    simp only [upsert_burn, h, hl]
    rw [mergeBurnRow_merge, replaceBurn_replace]

/-- A stored burn row whose `block_time` is present, used as concrete
scenario input. -/
def sampleStoredRow : BurnRow :=
  { slot := 1, success := true, fee_lamports := 10, fee_payer := "payer",
    block_time := some 5, compute_units := none, arbitrage_success := none }

/-- An incoming burn row for the same signature with a different present
`block_time`, absent `block_time`-free variant used in the merge witness. -/
def sampleIncomingRow : BurnRow :=
  { slot := 2, success := false, fee_lamports := 20, fee_payer := "payer2",
    block_time := none, compute_units := some 9,
    arbitrage_success := some true }

/-- C2 counterexample: the claim's fill-if-absent rule says an incoming
optional value replaces the stored one only if the stored one is absent.
Here the stored `block_time` is present (`some 5`) and the incoming one is
`some 7`, yet the upsert overwrites it with the incoming value: the stored
row's `block_time` becomes `some 7`, not the claimed `some 5`. -/
theorem upsert_burn_fill_if_absent_counterexample :
    ((lookupBurn
        (upsert_burn [("sig", sampleStoredRow)] "sig"
          { sampleStoredRow with slot := 2, block_time := some 7 })
        "sig").map BurnRow.block_time = some (some 7)) ∧
      some (some (7 : Int)) ≠ some (some (5 : Int)) := by
  constructor
  · rfl
  · decide

/-- C2 amended: on an upsert for an existing signature, the non-optional
fields `slot`, `success`, `fee_lamports`, `fee_payer` are always
overwritten with the incoming observation, and each optional field
(`block_time`, `compute_units`, `arbitrage_success`) takes the incoming
value whenever the incoming value is present, keeping the stored value only
when the incoming value is absent (so an absent incoming value never nulls
a stored one). -/
theorem upsert_burn_merge_fields (tbl : BurnsTable) (sig : String)
    (stored incoming : BurnRow) (h : lookupBurn tbl sig = some stored) :
    ∃ r, lookupBurn (upsert_burn tbl sig incoming) sig = some r ∧
      r.slot = incoming.slot ∧
      r.success = incoming.success ∧
      r.fee_lamports = incoming.fee_lamports ∧
      r.fee_payer = incoming.fee_payer ∧
      (∀ v, incoming.block_time = some v → r.block_time = some v) ∧
      (incoming.block_time = none → r.block_time = stored.block_time) ∧
      (∀ v, incoming.compute_units = some v → r.compute_units = some v) ∧
      (incoming.compute_units = none →
        r.compute_units = stored.compute_units) ∧
      (∀ v, incoming.arbitrage_success = some v →
        r.arbitrage_success = some v) ∧
      (incoming.arbitrage_success = none →
        r.arbitrage_success = stored.arbitrage_success) := by
  refine ⟨mergeBurnRow stored incoming, ?_, rfl, rfl, rfl, rfl,
    ?_, ?_, ?_, ?_, ?_, ?_⟩
  · have hl := lookupBurn_replace tbl sig (mergeBurnRow stored incoming)
    simp only [upsert_burn, h]
    rw [hl, h]
    rfl
  · intro v hv; simp [mergeBurnRow, coalesce, hv]
  · intro hv; simp [mergeBurnRow, coalesce, hv]
  · intro v hv; simp [mergeBurnRow, coalesce, hv]
  · intro hv; simp [mergeBurnRow, coalesce, hv]
  · intro v hv; simp [mergeBurnRow, coalesce, hv]
  · intro hv; simp [mergeBurnRow, coalesce, hv]

/-- Witness for the amended C2 merge law at a concrete table: the stored
row for "sig" exists, and the upserted row satisfies all the merge field
equations there. -/
theorem upsert_burn_merge_fields_witness :
    lookupBurn [("sig", sampleStoredRow)] "sig" = some sampleStoredRow ∧
    (∃ r, lookupBurn
        (upsert_burn [("sig", sampleStoredRow)] "sig" sampleIncomingRow)
        "sig" = some r ∧
      r.slot = sampleIncomingRow.slot ∧
      r.success = sampleIncomingRow.success ∧
      r.fee_lamports = sampleIncomingRow.fee_lamports ∧
      r.fee_payer = sampleIncomingRow.fee_payer ∧
      (∀ v, sampleIncomingRow.block_time = some v → r.block_time = some v) ∧
      (sampleIncomingRow.block_time = none →
        r.block_time = sampleStoredRow.block_time) ∧
      (∀ v, sampleIncomingRow.compute_units = some v →
        r.compute_units = some v) ∧
      (sampleIncomingRow.compute_units = none →
        r.compute_units = sampleStoredRow.compute_units) ∧
      (∀ v, sampleIncomingRow.arbitrage_success = some v →
        r.arbitrage_success = some v) ∧
      (sampleIncomingRow.arbitrage_success = none →
        r.arbitrage_success = sampleStoredRow.arbitrage_success)) :=
  ⟨by decide,
    upsert_burn_merge_fields [("sig", sampleStoredRow)] "sig"
      sampleStoredRow sampleIncomingRow (by decide)⟩

/-! ## Error classification (ingest.rs, `classify_error_bytes`) -/

/-- Modelled from the spec: the chain's structured transaction-error type
(`solana_sdk::transaction::TransactionError`, external to this repository).
The spec treats its decoder as an injected capability
(`bytes → structured outcome | decode failure`); this inductive models the
leading fieldless variants of the external enum, which is all the claims
evaluate concretely. -/
inductive TxErr where
  | AccountInUse
  | AccountLoadedTwice
  | AccountNotFound
  | ProgramAccountNotFound
  | InsufficientFundsForFee
  | InvalidAccountForFee
  | AlreadyProcessed
  | BlockhashNotFound
deriving Repr, DecidableEq

/-- Rust `format!("{:?}", tx_err)`: the decoded variant's textual (Debug)
form. -/
def txErrDebug : TxErr → String
  | .AccountInUse => "AccountInUse"
  | .AccountLoadedTwice => "AccountLoadedTwice"
  | .AccountNotFound => "AccountNotFound"
  | .ProgramAccountNotFound => "ProgramAccountNotFound"
  | .InsufficientFundsForFee => "InsufficientFundsForFee"
  | .InvalidAccountForFee => "InvalidAccountForFee"
  | .AlreadyProcessed => "AlreadyProcessed"
  | .BlockhashNotFound => "BlockhashNotFound"

/-- Rust `format!("{:?}", bytes)` for a byte slice: `[b0, b1, ...]`. -/
def fmtBytes (bs : List Nat) : String :=
  "[" ++ String.intercalate ", " (bs.map toString) ++ "]"

/-- Modelled from the spec: the external bincode decoding of the structured
error (`bincode::deserialize::<TransactionError>`), restricted to the
fieldless variants above. bincode encodes such an enum value as its 4-byte
little-endian variant tag; anything else (in particular the empty byte
string) fails to decode. -/
def decode_transaction_error (bytes : List Nat) : Option TxErr :=
  match bytes with
  | [t0, 0, 0, 0] =>
    match t0 with
    | 0 => some .AccountInUse
    | 1 => some .AccountLoadedTwice
    | 2 => some .AccountNotFound
    | 3 => some .ProgramAccountNotFound
    | 4 => some .InsufficientFundsForFee
    | 5 => some .InvalidAccountForFee
    | 6 => some .AlreadyProcessed
    | 7 => some .BlockhashNotFound
    | _ => none
  | _ => none

/-- `classify_error_bytes` of `handle_tx`, with the external decoder
injected: decoded variants render by Debug, undecodable payloads fall back
to `Unknown(<raw bytes>)`. -/
def classify_error_bytes (decode : List Nat → Option TxErr)
    (bytes : List Nat) : String :=
  match decode bytes with
  | some tx_err => txErrDebug tx_err
  | none => "Unknown(" ++ fmtBytes bytes ++ ")"

/-- The raw error value carried by the feed's transaction status
(`SubscribeUpdateTransactionError`): a plain byte payload. -/
structure TxErrorProto where
  err : List Nat
deriving Repr, DecidableEq

/-- Rust `format!("{:?}", e)` on the raw feed error value, used by
`handle_tx` when the payload byte string is empty. -/
def proto_error_debug (e : TxErrorProto) : String :=
  "SubscribeUpdateTransactionError \x7b err: " ++ fmtBytes e.err ++ " \x7d"

/-- The `error_type` expression of `handle_tx`: present iff `meta.err` is,
classifying non-empty payload bytes through the decoder and empty ones by
the raw value's Debug form. -/
def compute_error_type (decode : List Nat → Option TxErr) (meta_err : Option TxErrorProto) :
    Option String :=
  meta_err.map (fun e =>
    if e.err.isEmpty then proto_error_debug e
    else classify_error_bytes decode e.err)

theorem string_append_ne_empty (s t : String) (h : s ≠ "") : s ++ t ≠ "" := by
  cases s with
  | mk sd =>
    cases t with
    | mk td =>
      intro hc
      have hd : sd ++ td = ([] : List Char) := congrArg String.data hc
      exact h (congrArg String.mk (List.append_eq_nil.mp hd).1)

theorem txErrDebug_ne_empty (v : TxErr) : txErrDebug v ≠ "" := by
  cases v <;> decide

theorem classify_error_bytes_ne_empty (decode : List Nat → Option TxErr)
    (bytes : List Nat) : classify_error_bytes decode bytes ≠ "" := by
  unfold classify_error_bytes
  cases decode bytes with
  | none =>
    exact string_append_ne_empty _ _ (string_append_ne_empty _ _ (by decide))
  | some v => exact txErrDebug_ne_empty v

theorem proto_error_debug_ne_empty (e : TxErrorProto) :
    proto_error_debug e ≠ "" :=
  string_append_ne_empty _ _ (string_append_ne_empty _ _ (by decide))

/-- C4 counterexample: a failed transaction whose error payload is the
empty byte string. The empty payload does not decode under the structured
encoding (`decode_transaction_error [] = none`), so by the claim its label
should be the literal-bytes fallback `Unknown([])`; the code instead labels
it with the Debug form of the raw feed error value. -/
theorem error_label_empty_bytes_counterexample :
    compute_error_type decode_transaction_error (some { err := [] })
        = some (proto_error_debug { err := [] }) ∧
      decode_transaction_error [] = none ∧
      proto_error_debug { err := [] } ≠ "Unknown(" ++ fmtBytes [] ++ ")" :=
  ⟨rfl, rfl, by decide⟩

/-- C4 amended: for every failed transaction (metadata present with an
error value) the error label is produced and is never empty; when the
payload bytes are non-empty, a successful decode labels with the decoded
variant's textual form and a failed decode labels with the
`Unknown(<raw bytes>)` fallback; when the payload is empty, the label is
the Debug form of the raw error value (still non-empty). -/
theorem error_label_never_empty (decode : List Nat → Option TxErr)
    (meta_err : Option TxErrorProto) (e : TxErrorProto)
    (h : meta_err = some e) :
    ∃ s, compute_error_type decode meta_err = some s ∧ s ≠ "" ∧
      (∀ v, e.err ≠ [] → decode e.err = some v → s = txErrDebug v) ∧
      (e.err ≠ [] → decode e.err = none →
        s = "Unknown(" ++ fmtBytes e.err ++ ")") ∧
      (e.err = [] → s = proto_error_debug e) := by
  subst h
  refine ⟨_, rfl, ?_, ?_, ?_, ?_⟩
  · by_cases he : e.err.isEmpty = true
    · simp only [compute_error_type, Option.map_some, he, if_pos]
      exact proto_error_debug_ne_empty e
    · simp only [compute_error_type, Option.map_some, he, if_neg,
        Bool.false_eq_true, not_false_eq_true]
      exact classify_error_bytes_ne_empty decode e.err
  · intro v hne hdec
    have he : e.err.isEmpty = false := by
      cases herr : e.err with
      | nil => exact absurd herr hne
      | cons a l => rfl
    simp [he, classify_error_bytes, hdec]
  · intro hne hdec
    have he : e.err.isEmpty = false := by
      cases herr : e.err with
      | nil => exact absurd herr hne
      | cons a l => rfl
    simp [he, classify_error_bytes, hdec]
  · intro hnil
    simp [hnil]

/-- A concrete failed-transaction error value whose 4-byte payload decodes
to the first structured variant. -/
def sampleErrProto : TxErrorProto := { err := [0, 0, 0, 0] }

/-- Witness for the amended C4 at a concrete failed transaction: the
payload `[0,0,0,0]` decodes to `AccountInUse` and the label is its textual
form, which is non-empty. -/
theorem error_label_never_empty_witness :
    (some sampleErrProto = some sampleErrProto) ∧
      (∃ s, compute_error_type decode_transaction_error (some sampleErrProto)
          = some s ∧ s ≠ "" ∧
        (∀ v, sampleErrProto.err ≠ [] →
          decode_transaction_error sampleErrProto.err = some v →
            s = txErrDebug v) ∧
        (sampleErrProto.err ≠ [] →
          decode_transaction_error sampleErrProto.err = none →
            s = "Unknown(" ++ fmtBytes sampleErrProto.err ++ ")") ∧
        (sampleErrProto.err = [] → s = proto_error_debug sampleErrProto)) :=
  ⟨rfl, error_label_never_empty decode_transaction_error
    (some sampleErrProto) sampleErrProto rfl⟩

/-! ## The per-transaction processor `handle_tx` (ingest.rs) -/

/-- The raw transaction outcome metadata of the feed message. -/
structure TxMeta where
  err : Option TxErrorProto
  fee : Nat
  compute_units_consumed : Option Nat
  log_messages : List String
deriving Repr, DecidableEq

/-- The transaction message: account keys (base-58-encoded strings, the
encoding abstracted) and compiled instructions. -/
structure TxMessage where
  account_keys : List String
  instructions : List CompiledInstruction
deriving Repr, DecidableEq

/-- The inner transaction of the feed message. -/
structure TxInner where
  message : Option TxMessage
deriving Repr, DecidableEq

/-- The wrapped transaction (`tx_update.transaction` in the code):
signature (base-58-encoded, the encoding abstracted), inner transaction
and outcome metadata. -/
structure TxWrapper where
  signature : String
  transaction : Option TxInner
  meta : Option TxMeta
deriving Repr, DecidableEq

/-- One `SubscribeUpdateTransaction` stream message. -/
structure TxUpdate where
  transaction : Option TxWrapper
  slot : Nat
deriving Repr, DecidableEq

/-- Arguments of the `upsert_burn` call issued by `handle_tx`. -/
structure BurnArgs where
  signature : String
  slot : Int
  success : Bool
  fee_lamports : Int
  fee_payer : String
  block_time : Option Int
  compute_units : Option Int
  arbitrage_success : Option Bool
deriving Repr, DecidableEq

/-- Arguments of the `upsert_tx_failure` call issued by `handle_tx`. -/
structure FailureArgs where
  signature : String
  error_type : String
  slot : Int
  ts : Option Int
deriving Repr, DecidableEq

/-- The three persistence calls `handle_tx` makes for one message: the burn
upsert (always), the failure upsert (when present), and the instruction
upsert (when present, with its program-count list). -/
structure HandleTxCalls where
  burn : BurnArgs
  failure : Option FailureArgs
  instructions : Option (List (String × Int))
deriving Repr, DecidableEq

/-- The fee-payer extraction of `handle_tx`: the first account key of the
transaction message, or the empty string when any layer is absent. -/
def tx_fee_payer (wrapped : TxWrapper) : String :=
  match wrapped.transaction with
  | some tx =>
    match tx.message with
    | some msg => (msg.account_keys.get? 0).getD ""
    | none => ""
  | none => ""

/-- The program-count aggregation of `handle_tx` over the wrapped
transaction: empty when the inner transaction or message is absent. -/
def tx_program_counts (wrapped : TxWrapper) : List (String × Int) :=
  match wrapped.transaction with
  | some tx =>
    match tx.message with
    | some msg => aggregate_program_counts msg.account_keys msg.instructions
    | none => []
  | none => []

/-- The arbitrage heuristic of `handle_tx`: runs only when metadata is
present, else the classification stays unset. -/
def tx_arbitrage (wrapped : TxWrapper) : Option Bool :=
  match wrapped.meta with
  | some meta => classify_arbitrage meta.log_messages
  | none => none

/-- The success determination of `handle_tx`: with metadata present the
transaction succeeded iff no error is set; entirely absent metadata
defaults to success. -/
def tx_success (wrapped : TxWrapper) : Bool :=
  match wrapped.meta with
  | some meta => meta.err.isNone
  | none => true

/-- The fee determination of `handle_tx`: the metadata fee, defaulting to
zero when metadata is entirely absent. -/
def tx_fee_lamports (wrapped : TxWrapper) : Int :=
  match wrapped.meta with
  | some meta => meta.fee
  | none => 0

/-- The compute-units extraction of `handle_tx`. -/
def tx_compute_units (wrapped : TxWrapper) : Option Int :=
  match wrapped.meta with
  | some meta => meta.compute_units_consumed.map (fun v => (v : Int))
  | none => none

/-- The error-type classification of `handle_tx`, absent when metadata
is. -/
def tx_error_type (decode : List Nat → Option TxErr) (wrapped : TxWrapper) :
    Option String :=
  match wrapped.meta with
  | some meta => compute_error_type decode meta.err
  | none => none

/-- `handle_tx` of ingest.rs as the persistence calls it issues: `none`
when the envelope has no inner transaction payload (early exit). The
best-effort `fetch_block_time` result is passed in as `block_time`, and the
external error decoder as `decode`. -/
def handle_tx (decode : List Nat → Option TxErr) (block_time : Option Int)
    (u : TxUpdate) : Option HandleTxCalls :=
  match u.transaction with
  | none => none
  | some wrapped =>
    let slot : Int := u.slot
    let program_counts := tx_program_counts wrapped
    some
      { burn :=
          { signature := wrapped.signature, slot := slot,
            success := tx_success wrapped,
            fee_lamports := tx_fee_lamports wrapped,
            fee_payer := tx_fee_payer wrapped,
            block_time := block_time,
            compute_units := tx_compute_units wrapped,
            arbitrage_success := tx_arbitrage wrapped }
        failure :=
          if tx_success wrapped then none
          else (tx_error_type decode wrapped).map (fun err_ty =>
            { signature := wrapped.signature, error_type := err_ty,
              slot := slot, ts := block_time })
        instructions :=
          if program_counts.isEmpty then none else some program_counts }

/-- A transaction message with absent metadata but one non-noise
instruction. -/
def noMetaWrapper : TxWrapper :=
  { signature := "sig3", meta := none,
    transaction := some
      { message := some { account_keys := ["Prog1"], instructions := [⟨0⟩] } } }

/-- C3 counterexample: a transaction whose outcome metadata is entirely
absent but whose message carries one instruction of the non-noise program
"Prog1". The claim says no instruction records are produced; the code
produces the instruction upsert with `[("Prog1", 1)]` — the aggregation
does not depend on the metadata. -/
theorem handle_tx_no_meta_counterexample :
    (handle_tx decode_transaction_error none
        { slot := 42, transaction := some noMetaWrapper }).map
        (fun r => r.instructions)
      = some (some [("Prog1", 1)]) ∧
    (some (some [("Prog1", (1 : Int))])
        : Option (Option (List (String × Int)))) ≠ some none :=
  ⟨rfl, by decide⟩

/-- C3 amended: a transaction message with entirely absent outcome metadata
yields a burn record with `success = true`, `fee_lamports = 0` (and no
compute units), and no failure record; instruction records are independent
of the metadata: they are absent exactly when the message's per-program
aggregation is empty (in particular when there are no instructions). -/
theorem handle_tx_no_meta (decode : List Nat → Option TxErr)
    (block_time : Option Int) (u : TxUpdate) (wrapped : TxWrapper)
    (h : u.transaction = some wrapped) (hm : wrapped.meta = none) :
    ∃ r, handle_tx decode block_time u = some r ∧
      r.burn.success = true ∧
      r.burn.fee_lamports = 0 ∧
      r.burn.compute_units = none ∧
      r.failure = none ∧
      (r.instructions = none ↔ tx_program_counts wrapped = []) := by
  refine ⟨_, by rw [handle_tx, h], ?_, ?_, ?_, ?_, ?_⟩
  · simp [tx_success, hm]
  · simp [tx_fee_lamports, hm]
  · simp [tx_compute_units, hm]
  · simp [tx_success, hm]
  · cases hl : tx_program_counts wrapped with
    | nil => simp
    | cons a l => simp

/-- The same metadata-free wrapper with an empty instruction list. -/
def noMetaNoInstWrapper : TxWrapper :=
  { signature := "sig0", meta := none,
    transaction := some
      { message := some { account_keys := ["Prog1"], instructions := [] } } }

/-- Witness for the amended C3 at a concrete message: absent metadata and
an empty instruction list give the success/zero-fee burn record, no
failure record, and no instruction records. -/
theorem handle_tx_no_meta_witness :
    ({ slot := 7, transaction := some noMetaNoInstWrapper } : TxUpdate).transaction
        = some noMetaNoInstWrapper ∧
      noMetaNoInstWrapper.meta = none ∧
      (∃ r, handle_tx decode_transaction_error none
          { slot := 7, transaction := some noMetaNoInstWrapper } = some r ∧
        r.burn.success = true ∧
        r.burn.fee_lamports = 0 ∧
        r.burn.compute_units = none ∧
        r.failure = none ∧
        (r.instructions = none ↔ tx_program_counts noMetaNoInstWrapper = [])) :=
  ⟨rfl, rfl,
    handle_tx_no_meta decode_transaction_error none
      { slot := 7, transaction := some noMetaNoInstWrapper }
      noMetaNoInstWrapper rfl rfl⟩

/-! ## The stream supervisor `run` (ingest.rs) -/

/-- Result of one subscription session (`stream_once`): a clean end or an
error. -/
inductive SessionResult where
  | ok
  | error (e : String)
deriving Repr, DecidableEq

/-- What the supervisor loop may do after a session: retry after a delay in
seconds, or stop the loop (returning). -/
inductive LoopCmd where
  | retryAfter (delaySecs : Nat)
  | stop
deriving Repr, DecidableEq

/-- One turn of the infinite `loop` in `run`: a clean session end waits 2
seconds before retrying, a failed session backs off 5 seconds; the loop
never stops. -/
def run_step : SessionResult → LoopCmd
  | .ok => .retryAfter 2
  | .error _ => .retryAfter 5

/-- C7: the stream supervisor never returns — every session outcome leads
to a retry, never to stopping — and the retry delay is the short fixed
2 time units after a clean session end and the longer fixed 5 time units
after a session error, unconditionally (no retry bound in the state). -/
theorem run_step_policy (r : SessionResult) :
    run_step r ≠ LoopCmd.stop ∧
      (r = SessionResult.ok → run_step r = LoopCmd.retryAfter 2) ∧
      (∀ e, r = SessionResult.error e → run_step r = LoopCmd.retryAfter 5) := by
  cases r with
  | ok => exact ⟨(fun h => nomatch h), (fun _ => rfl), (fun e h => nomatch h)⟩
  | error e =>
    exact ⟨(fun h => nomatch h), (fun h => nomatch h), (fun e' h => rfl)⟩

/-- Witness for C7 at the two concrete session outcomes. -/
theorem run_step_policy_witness :
    run_step SessionResult.ok ≠ LoopCmd.stop ∧
      run_step SessionResult.ok = LoopCmd.retryAfter 2 ∧
      run_step (SessionResult.error "stream error") = LoopCmd.retryAfter 5 :=
  ⟨(run_step_policy SessionResult.ok).1,
    (run_step_policy SessionResult.ok).2.1 rfl,
    (run_step_policy (SessionResult.error "stream error")).2.2
      "stream error" rfl⟩

/-! ## The keepalive (ping) arm of `stream_once` (ingest.rs) -/

/-- The fixed acknowledgment identifier carried by the pong
(`SubscribeRequestPing { id: 1 }`). -/
structure PingAck where
  id : Int
deriving Repr, DecidableEq

/-- The pong message sent back on a ping: a subscribe request whose only
set field is the ping acknowledgment. -/
structure PongMessage where
  ping : Option PingAck
deriving Repr, DecidableEq

/-- The pong built by `stream_once`. -/
def pong_message : PongMessage := { ping := some { id := 1 } }

/-- What the message loop does next after handling one message. -/
inductive LoopOutcome where
  | continueReading
  | sessionError (e : String)
deriving Repr, DecidableEq

/-- The ping arm of the message loop:
`subscribe_tx.send(pong).await.ok();` — the send result is converted to an
`Option` and discarded, and the loop falls through to the next read. -/
def handle_ping (send_result : Except String Unit) : LoopOutcome :=
  match send_result with
  | .ok _ => LoopOutcome.continueReading
  | .error _ => LoopOutcome.continueReading

/-- C8 counterexample: even a fatal write failure of the pong send is
discarded — the loop continues reading and no session error is raised, so
the claimed propagation of fatal write failures does not happen. -/
theorem ping_fatal_write_not_propagated :
    handle_ping (Except.error "fatal write failure")
        = LoopOutcome.continueReading ∧
      handle_ping (Except.error "fatal write failure")
        ≠ LoopOutcome.sessionError "fatal write failure" :=
  ⟨rfl, fun h => by cases h⟩

/-- C8 amended: the pong reply to a ping carries the fixed acknowledgment
identifier 1, and failure to send it is always non-fatal to the message
loop: the send result — fatal or not — is discarded and the loop continues
reading; a pong write failure never ends the session by itself (a dead
session surfaces only as an error on a subsequent stream read). -/
theorem handle_ping_always_continues (send_result : Except String Unit) :
    handle_ping send_result = LoopOutcome.continueReading ∧
      pong_message.ping = some { id := 1 } := by
  cases send_result with
  | ok _ => exact ⟨rfl, rfl⟩
  | error _ => exact ⟨rfl, rfl⟩

/-! ## `upsert_tx_instructions` (db.rs) -/

/-- The `tx_instructions` table keyed by `(signature, program_id)`, plus
observable resource effects of one call: connections taken from the pool
and SQL statements executed. The db calls themselves are modelled as
succeeding. -/
structure InstrDbState where
  rows : List ((String × String) × Int)
  connections_taken : Nat
  statements_executed : Nat
deriving Repr, DecidableEq

/-- One `INSERT ... ON CONFLICT (signature, program_id) DO UPDATE SET
num_instructions = EXCLUDED.num_instructions` statement. -/
def upsertInstrRow : List ((String × String) × Int) → String → String → Int →
    List ((String × String) × Int)
  | [], sig, pid, c => [((sig, pid), c)]
  | (k, v) :: rest, sig, pid, c =>
    if k = (sig, pid) then (k, c) :: rest
    else (k, v) :: upsertInstrRow rest sig pid c

/-- `upsert_tx_instructions` of db.rs: an empty program-count list returns
`Ok(())` immediately, before `pool.get()`; otherwise one connection is
taken and one upsert statement is executed per list entry. -/
def upsert_tx_instructions (st : InstrDbState) (sig : String)
    (program_counts : List (String × Int)) : InstrDbState :=
  if program_counts.isEmpty then st
  else
    let st1 := { st with connections_taken := st.connections_taken + 1 }
    program_counts.foldl
      (fun s kv =>
        { s with
          rows := upsertInstrRow s.rows sig kv.1 kv.2
          statements_executed := s.statements_executed + 1 })
      st1

/-- C9: calling the instruction-record upsert with an empty program-count
list returns success with the state unchanged: no rows change, no
connection is taken from the pool, and no statement is executed. -/
theorem upsert_tx_instructions_empty_noop (st : InstrDbState) (sig : String) :
    upsert_tx_instructions st sig [] = st :=
  rfl

end Dash
